import Mathlib

/-!
Verification development for the slice value engine of the tracked-metrics
backend.  The definitions below are shallow embeddings of the TypeScript
sources:

* `sequence-formula.service.ts`  — closed-form sequence formulas, the
  value/index duality and the closest-index searches;
* `slice.service.ts`             — step / percentage / absolute updates on a
  non-composite slice together with the SliceUpdate audit trail;
* `scheduled-slice.scheduler.ts` — the scheduled-deadline penalty evaluator;
* `composite-slice.service.ts`   — weighted aggregation with continuous decay
  for composite slices and component check-offs;
* `composite-decay.scheduler.ts` — the hourly component decay sweep;
* `slice-temporal.service.ts`    — the midnight daily reset;
* `time.utils.ts`                — calendar helpers.

Conventions of the embedding: JavaScript numbers that hold formula parameters
are modelled as rationals, formula values as reals (the formulas use sqrt,
log and exp); timestamps are modelled as integer milliseconds since an
arbitrary epoch in the reference timezone, so `setHours(0,0,0,0)` becomes
flooring to a multiple of 86400000.  Fallible operations return
`Except String`; the `catch` in `calculateValue` is the `.error` match arm.
-/

open scoped Classical

/-- Formula kind of a sequence config.  The TypeScript type is a string
union; `other` stands for any runtime string outside the five known kinds
(the switch's `default` branch). -/
inductive SequenceType where
  | linear
  | exponential
  | sqrt
  | logarithmic
  | sigmoid
  | other (name : String)
deriving DecidableEq

/-- Parameter bag of a sequence config; absent fields are `none` and the
formula helpers substitute the documented defaults via `getD`. -/
structure SequenceParams where
  multiplier : Option ℚ := none
  base : Option ℚ := none
  offset : Option ℚ := none
  max : Option ℚ := none
  k : Option ℚ := none
  inflection : Option ℚ := none
deriving DecidableEq

/-- A sequence configuration: formula type plus parameter bag. -/
structure SliceSequenceConfig where
  type : SequenceType
  params : SequenceParams := {}
deriving DecidableEq

/-- Linear sequence `f(n) = multiplier*n + offset` (defaults 1, 0). -/
noncomputable def calculateLinear (n : ℕ) (p : SequenceParams) : ℝ :=
  ((p.multiplier.getD 1 : ℚ) : ℝ) * (n : ℝ) + ((p.offset.getD 0 : ℚ) : ℝ)

/-- Exponential sequence `f(n) = base^n` (default base 2); a non-positive
base is rejected with an error, which `calculateValue` catches. -/
noncomputable def calculateExponential (n : ℕ) (p : SequenceParams) :
    Except String ℝ :=
  let base := p.base.getD 2
  if base ≤ 0 then .error "Exponential base must be positive"
  else .ok ((base : ℝ) ^ n)

/-- Square-root sequence `f(n) = multiplier*sqrt n + offset` (defaults 1, 0). -/
noncomputable def calculateSqrt (n : ℕ) (p : SequenceParams) : ℝ :=
  ((p.multiplier.getD 1 : ℚ) : ℝ) * Real.sqrt (n : ℝ) +
    ((p.offset.getD 0 : ℚ) : ℝ)

/-- Logarithmic sequence `f(n) = multiplier*ln(n+1) + offset` (defaults 10, 0). -/
noncomputable def calculateLogarithmic (n : ℕ) (p : SequenceParams) : ℝ :=
  ((p.multiplier.getD 10 : ℚ) : ℝ) * Real.log ((n : ℝ) + 1) +
    ((p.offset.getD 0 : ℚ) : ℝ)

/-- Sigmoid sequence `f(n) = max / (1 + e^(-k*(n-inflection)))`
(defaults max 100, k 0.2, inflection 15). -/
noncomputable def calculateSigmoid (n : ℕ) (p : SequenceParams) : ℝ :=
  ((p.max.getD 100 : ℚ) : ℝ) /
    (1 + Real.exp (-((p.k.getD (1/5) : ℚ) : ℝ) *
      ((n : ℝ) - ((p.inflection.getD 15 : ℚ) : ℝ))))

/-- Body of the `try` block of `calculateValue`: dispatch on the formula
type; the `default` branch and a bad exponential base are the error cases. -/
noncomputable def calcValueCore (config : SliceSequenceConfig) (n : ℕ) :
    Except String ℝ :=
  match config.type with
  | .linear => .ok (calculateLinear n config.params)
  | .exponential => calculateExponential n config.params
  | .sqrt => .ok (calculateSqrt n config.params)
  | .logarithmic => .ok (calculateLogarithmic n config.params)
  | .sigmoid => .ok (calculateSigmoid n config.params)
  | .other name => .error ("Unknown sequence type: " ++ name)

/-- Value of the sequence at `index`: a negative index is clamped to 0, the
formula value is floored to an integer, and any computation error yields 0. -/
noncomputable def calculateValue (config : SliceSequenceConfig)
    (index : ℤ) : ℤ :=
  match calcValueCore config (Int.toNat (max index 0)) with
  | .ok v => ⌊v⌋
  | .error _ => 0

/-- Monotonicity classification used to pick binary versus linear search.
Sigmoid is always classified monotonic by the source. -/
def isMonotonicIncreasing (config : SliceSequenceConfig) : Bool :=
  match config.type with
  | .linear => decide (0 ≤ config.params.multiplier.getD 1)
  | .exponential => decide (1 ≤ config.params.base.getD 2)
  | .sqrt => decide (0 ≤ config.params.multiplier.getD 1)
  | .logarithmic => decide (0 ≤ config.params.multiplier.getD 10)
  | .sigmoid => true
  | .other _ => false

/-- Loop of `binarySearchIndex`, with the sequence abstracted as `v`.  The
accumulators `closestIndex`/`closestDiff` mirror the mutable locals; `mid`
is the floor of the midpoint, which for the non-negative ranges used by the
service coincides with integer division by 2. -/
def binarySearchGo (v : ℤ → ℤ) (target : ℤ)
    (left right closestIndex closestDiff : ℤ) : ℤ :=
  if _h : left ≤ right then
    let mid := (left + right) / 2
    let midValue := v mid
    let diff := |midValue - target|
    let ci := if diff < closestDiff then mid else closestIndex
    let cd := if diff < closestDiff then diff else closestDiff
    if midValue < target then
      binarySearchGo v target (mid + 1) right ci cd
    else if target < midValue then
      binarySearchGo v target left (mid - 1) ci cd
    else mid
  else closestIndex
termination_by (right + 1 - left).toNat
decreasing_by all_goals omega

/-- Binary search for the closest index (monotonic sequences). -/
noncomputable def binarySearchIndex (config : SliceSequenceConfig)
    (targetValue minIndex maxIndex : ℤ) : ℤ :=
  binarySearchGo (calculateValue config) targetValue minIndex maxIndex
    minIndex |calculateValue config minIndex - targetValue|

/-- Loop of `linearSearchIndex`, scanning indices `i..maxIndex` and keeping
the first index with the strictly smallest absolute difference. -/
def linearSearchGo (v : ℤ → ℤ) (target : ℤ)
    (i maxIndex closestIndex closestDiff : ℤ) : ℤ :=
  if _h : i ≤ maxIndex then
    let value := v i
    let diff := |value - target|
    if diff < closestDiff then linearSearchGo v target (i + 1) maxIndex i diff
    else linearSearchGo v target (i + 1) maxIndex closestIndex closestDiff
  else closestIndex
termination_by (maxIndex + 1 - i).toNat
decreasing_by all_goals omega

/-- Linear search for the closest index (non-monotonic sequences). -/
noncomputable def linearSearchIndex (config : SliceSequenceConfig)
    (targetValue maxIndex : ℤ) : ℤ :=
  linearSearchGo (calculateValue config) targetValue 1 maxIndex
    0 |calculateValue config 0 - targetValue|

/-- Find the index whose value is closest to `targetValue`; non-positive
targets map to index 0, monotonic configs use binary search, the rest a
linear scan.  The `maxIndex` argument defaults to 1000. -/
noncomputable def findClosestIndex (config : SliceSequenceConfig)
    (targetValue : ℤ) (maxIndex : ℤ := 1000) : ℤ :=
  if targetValue ≤ 0 then 0
  else if isMonotonicIncreasing config then
    binarySearchIndex config targetValue 0 maxIndex
  else linearSearchIndex config targetValue maxIndex

/-! Time utilities (`time.utils.ts`), at millisecond granularity.  A
timestamp is an integer count of milliseconds in the reference timezone, so
the `Date` calendar operations become arithmetic modulo 86400000. -/

/-- Minutes elapsed between two timestamps, floored as in the source. -/
def minutesElapsed (f t : ℤ) : ℤ := (t - f).fdiv 60000

/-- Hours elapsed: fractional, minutes divided by 60. -/
def hoursElapsed (f t : ℤ) : ℚ := ((minutesElapsed f t : ℤ) : ℚ) / 60

/-- Days elapsed: fractional, hours divided by 24. -/
def daysElapsed (f t : ℤ) : ℚ := hoursElapsed f t / 24

/-- Weeks elapsed: fractional, days divided by 7. -/
def weeksElapsed (f t : ℤ) : ℚ := daysElapsed f t / 7

/-- Midnight of the day containing `date` (`setHours(0,0,0,0)`). -/
def getStartOfDay (date : ℤ) : ℤ := 86400000 * date.fdiv 86400000

/-- Whether two timestamps fall on the same calendar day. -/
def isSameDay (d1 d2 : ℤ) : Bool :=
  decide (d1.fdiv 86400000 = d2.fdiv 86400000)

/-- Result of `isPastScheduledTime`: today's occurrence of the HH:MM wall
time plus the grace period is the deadline; `minutesLate` is clamped at 0. -/
def isPastScheduledTime (hh mm gracePeriodMinutes now : ℤ) : Bool × ℤ :=
  let expectedTime := getStartOfDay now + hh * 3600000 + mm * 60000
  let deadlineTime := expectedTime + gracePeriodMinutes * 60000
  (decide (deadlineTime < now), max 0 (minutesElapsed deadlineTime now))

/-! Data model of the slice value store (`schema.prisma` as used by
`slice.service.ts` and the schedulers).  Only the fields the engine reads
are modelled; `expectedTime` is kept as its parsed HH:MM pair. -/

/-- Tag of a SliceUpdate row. -/
inductive DeltaType where
  | steps
  | percentage
  | absolute
deriving DecidableEq

/-- Audit row recording one value change of a non-composite slice. -/
structure SliceUpdateRow where
  delta : ℤ
  deltaType : DeltaType
  valueBefore : ℤ
  valueAfter : ℤ
  indexBefore : ℤ
  indexAfter : ℤ
  date : ℤ
  notes : Option String
  automatic : Bool
deriving DecidableEq

/-- State of one slice row. -/
structure SliceRec where
  currentIndex : ℤ
  currentValue : ℤ
  isComposite : Bool
  increaseType : SequenceType
  increaseParams : SequenceParams := {}
  decreaseType : SequenceType
  decreaseParams : SequenceParams := {}
  expectedHH : ℤ := 0
  expectedMM : ℤ := 0
  gracePeriod : Option ℤ := none
  penaltyInterval : ℤ := 15
  penaltyAmount : ℤ := -1
  resetDaily : Bool := false
deriving DecidableEq

/-- One slice together with its SliceUpdate history, newest first (the
store always reads the history `orderBy date desc`). -/
structure EngineState where
  slice : SliceRec
  updates : List SliceUpdateRow
deriving DecidableEq

/-- Safety ceiling on indices (`MAX_INDEX` in `slice.service.ts`). -/
def MAX_INDEX : ℤ := 10000

/-- Sequence config selected for an increase move. -/
def increaseConfig (s : SliceRec) : SliceSequenceConfig :=
  ⟨s.increaseType, s.increaseParams⟩

/-- Sequence config selected for a decrease move. -/
def decreaseConfig (s : SliceRec) : SliceSequenceConfig :=
  ⟨s.decreaseType, s.decreaseParams⟩

/-- Audit row written by `updateBySteps` (its first store write). -/
noncomputable def updateByStepsRow (s : SliceRec) (now steps : ℤ)
    (notes : Option String) (automatic : Bool) : SliceUpdateRow :=
  let newIndex := max 0 (min (s.currentIndex + steps) MAX_INDEX)
  let config := if 0 ≤ steps then increaseConfig s else decreaseConfig s
  { delta := steps
    deltaType := .steps
    valueBefore := s.currentValue
    valueAfter := calculateValue config newIndex
    indexBefore := s.currentIndex
    indexAfter := newIndex
    date := now
    notes := notes
    automatic := automatic }

/-- Slice row as mutated by `updateBySteps` (its second store write). -/
noncomputable def updateByStepsPatch (s : SliceRec) (steps : ℤ) : SliceRec :=
  let newIndex := max 0 (min (s.currentIndex + steps) MAX_INDEX)
  let config := if 0 ≤ steps then increaseConfig s else decreaseConfig s
  { s with
    currentIndex := newIndex
    currentValue := calculateValue config newIndex }

/-- State visible if a persistence fault stops `updateBySteps` after the
SliceUpdate row was created but before the slice row was mutated: the two
writes are issued as separate sequential store calls, with no surrounding
storage transaction in the source. -/
noncomputable def updateByStepsAfterFirstWrite (st : EngineState)
    (now steps : ℤ) (notes : Option String) (automatic : Bool) :
    EngineState :=
  { st with updates := updateByStepsRow st.slice now steps notes automatic ::
      st.updates }

/-- Step update (`updateBySteps`): clamp the index shift into
`[0, MAX_INDEX]`, pick the increase or decrease curve by the sign of
`steps`, recompute the value, write the audit row, mutate the slice. -/
noncomputable def updateBySteps (st : EngineState) (now steps : ℤ)
    (notes : Option String) (automatic : Bool) :
    Except String EngineState :=
  if st.slice.isComposite then
    .error "Cannot update composite slices with steps. Use component updates instead."
  else
    .ok { slice := updateByStepsPatch st.slice steps
          updates := updateByStepsRow st.slice now steps notes automatic ::
            st.updates }

/-- Percentage update (`updateByPercentage`): the target value is
`max 0 ⌊oldValue*(1+p/100)⌋`, the curve is picked by the sign of the
percentage, and the new index is the closest index for the target searched
up to `MAX_INDEX`. -/
noncomputable def updateByPercentage (st : EngineState) (now percentage : ℤ)
    (notes : Option String) : Except String EngineState :=
  if st.slice.isComposite then
    .error "Cannot update composite slices with percentage. Use component updates instead."
  else
    let oldIndex := st.slice.currentIndex
    let oldValue := st.slice.currentValue
    let targetValue : ℤ :=
      max 0 ⌊(oldValue : ℚ) * (1 + (percentage : ℚ) / 100)⌋
    let config := if 0 ≤ percentage then increaseConfig st.slice
      else decreaseConfig st.slice
    let newIndex := findClosestIndex config targetValue MAX_INDEX
    let newValue := calculateValue config newIndex
    .ok { slice := { st.slice with
            currentIndex := newIndex
            currentValue := newValue }
          updates := { delta := percentage
                       deltaType := .percentage
                       valueBefore := oldValue
                       valueAfter := newValue
                       indexBefore := oldIndex
                       indexAfter := newIndex
                       date := now
                       notes := notes
                       automatic := false } :: st.updates }

/-- Absolute update (`updateToValue`): negative targets are rejected, the
curve is picked by whether the target is at least the current value, and
the new index is the closest index for the target searched up to
`MAX_INDEX`. -/
noncomputable def updateToValue (st : EngineState) (now value : ℤ)
    (notes : Option String) : Except String EngineState :=
  if st.slice.isComposite then
    .error "Cannot update composite slices to absolute value. Use component updates instead."
  else if value < 0 then
    .error "Value cannot be negative"
  else
    let oldIndex := st.slice.currentIndex
    let oldValue := st.slice.currentValue
    let config := if oldValue ≤ value then increaseConfig st.slice
      else decreaseConfig st.slice
    let newIndex := findClosestIndex config value MAX_INDEX
    let newValue := calculateValue config newIndex
    .ok { slice := { st.slice with
            currentIndex := newIndex
            currentValue := newValue }
          updates := { delta := value
                       deltaType := .absolute
                       valueBefore := oldValue
                       valueAfter := newValue
                       indexBefore := oldIndex
                       indexAfter := newIndex
                       date := now
                       notes := notes
                       automatic := false } :: st.updates }

/-- Midnight reset of one `resetDaily` slice (`resetDailySlices` in
`slice-temporal.service.ts`): index and value are both hard-set to 0. -/
def resetDailySlice (st : EngineState) : EngineState :=
  { st with slice := { st.slice with currentIndex := 0, currentValue := 0 } }

/-! Scheduled-deadline penalty evaluator
(`evaluateScheduledSlice` in `scheduled-slice.scheduler.ts`). -/

/-- One evaluation of a scheduled slice at time `now`: skip if the latest
update is a user report from today; otherwise, past the deadline, owe
`⌊minutesLate / penaltyInterval⌋` penalties, subtract the number of
automatic update rows already recorded today, and apply the remainder as a
single aggregated `updateBySteps` call flagged automatic. -/
noncomputable def evaluateScheduledSlice (st : EngineState) (now : ℤ) :
    Except String EngineState :=
  let today := getStartOfDay now
  let hasReportedToday :=
    match st.updates.head? with
    | some u => !u.automatic && isSameDay u.date now
    | none => false
  if hasReportedToday then .ok st
  else
    let past := isPastScheduledTime st.slice.expectedHH st.slice.expectedMM
      (st.slice.gracePeriod.getD 0) now
    if !past.1 then .ok st
    else
      let penaltiesDue := past.2.fdiv st.slice.penaltyInterval
      if penaltiesDue ≤ 0 then .ok st
      else
        let automaticUpdatesToday :=
          (st.updates.filter (fun u => u.automatic && decide (today ≤ u.date))).length
        let penaltiesToApply := max 0 (penaltiesDue - automaticUpdatesToday)
        if 0 < penaltiesToApply then
          updateBySteps st now (penaltiesToApply * st.slice.penaltyAmount)
            (some "Scheduled penalty") true
        else .ok st

/-! Composite slices (`composite-slice.service.ts`) and the hourly decay
sweep (`composite-decay.scheduler.ts`). -/

/-- Decay cadence of a component; `other` models a runtime string outside
the three known cadences. -/
inductive DecayType where
  | hourly
  | daily
  | weekly
  | other (name : String)
deriving DecidableEq

/-- One component of a composite slice. -/
structure Component where
  key : String
  weight : ℤ
  currentValue : ℤ
  maxValue : ℤ
  decayType : DecayType
  decayRate : ℚ
  lastChecked : Option ℤ
deriving DecidableEq

/-- Audit row recording one component value change. -/
structure ComponentUpdateRow where
  componentKey : String
  valueBefore : ℤ
  valueAfter : ℤ
  notes : Option String
deriving DecidableEq

/-- A composite slice with its components and component history. -/
structure CompositeState where
  isComposite : Bool
  currentValue : ℤ
  components : List Component
  componentUpdates : List ComponentUpdateRow
deriving DecidableEq

/-- Continuous decay of one component since `lastChecked`
(`applyDecay` in `composite-slice.service.ts`): elapsed periods are the raw
millisecond ratio (fractional, not floored), a never-checked component
counts as 0, an unknown decay type is left undecayed, and the decayed value
is floored at 0. -/
def applyDecay (c : Component) (now : ℤ) : ℚ :=
  match c.lastChecked with
  | none => 0
  | some lastChecked =>
    let elapsedMs := now - lastChecked
    match c.decayType with
    | .hourly =>
      max 0 ((c.currentValue : ℚ) - ((elapsedMs : ℚ) / 3600000) * c.decayRate)
    | .daily =>
      max 0 ((c.currentValue : ℚ) - ((elapsedMs : ℚ) / 86400000) * c.decayRate)
    | .weekly =>
      max 0 ((c.currentValue : ℚ) - ((elapsedMs : ℚ) / 604800000) * c.decayRate)
    | .other _ => (c.currentValue : ℚ)

/-- Aggregated value of a composite slice (`calculateCompositeValue`):
weighted sum of decayed component values with weights scaled by 100, then
normalized by the total weight and floored; 0 for no components or zero
total weight. -/
def calculateCompositeValue (components : List Component) (now : ℤ) : ℤ :=
  if components = [] then 0
  else
    let totalWeight := (components.map (fun c => c.weight)).sum
    let weightedSum :=
      (components.map (fun c => applyDecay c now * ((c.weight : ℚ) / 100))).sum
    if totalWeight = 0 then 0
    else ⌊weightedSum * 100 / (totalWeight : ℚ)⌋

/-- Replace the first component whose key matches (the source finds the
first matching component and updates it by its unique id). -/
def updateFirstComponent (l : List Component) (key : String)
    (f : Component → Component) : List Component :=
  match l with
  | [] => []
  | c :: rest =>
    if c.key = key then f c :: rest
    else c :: updateFirstComponent rest key f

/-- Explicit check-off of one component (`updateComponent`): the value
defaults to the component's `maxValue` when omitted, is range-checked
against `[0, maxValue]`, an audit row is written, the component's value and
`lastChecked` are set, and the parent's composite value is recomputed from
the updated components. -/
def updateComponent (cs : CompositeState) (componentKey : String)
    (value : Option ℤ) (notes : Option String) (now : ℤ) :
    Except String CompositeState :=
  if !cs.isComposite then .error "Slice is not a composite slice"
  else
    match cs.components.find? (fun c => c.key = componentKey) with
    | none => .error ("Component " ++ componentKey ++ " not found in slice")
    | some component =>
      let oldValue := component.currentValue
      let newValue := value.getD component.maxValue
      if newValue < 0 ∨ component.maxValue < newValue then
        .error "Value must be between 0 and maxValue"
      else
        let components' := updateFirstComponent cs.components componentKey
          (fun c => { c with currentValue := newValue, lastChecked := some now })
        let compositeValue := calculateCompositeValue components' now
        .ok { cs with
          currentValue := compositeValue
          components := components'
          componentUpdates :=
            { componentKey := componentKey
              valueBefore := oldValue
              valueAfter := newValue
              notes := notes } :: cs.componentUpdates }

/-- Hourly decay of one component (`decayComponent` in
`composite-decay.scheduler.ts`): skipped when never checked, when the decay
type is unknown, when less than one whole period has elapsed, when the
floored decay amount is non-positive, or when the clamped new value equals
the current one; otherwise the component's `currentValue` is lowered and an
audit row is written.  `none` means no store write happened at all. -/
def decayComponent (c : Component) (now : ℤ) :
    Option (Component × ComponentUpdateRow) :=
  match c.lastChecked with
  | none => none
  | some lastChecked =>
    let periodsElapsed : Option ℚ :=
      match c.decayType with
      | .hourly => some (hoursElapsed lastChecked now)
      | .daily => some (daysElapsed lastChecked now)
      | .weekly => some (weeksElapsed lastChecked now)
      | .other _ => none
    match periodsElapsed with
    | none => none
    | some periods =>
      if periods < 1 then none
      else
        let decayAmount := ⌊periods * c.decayRate⌋
        if decayAmount ≤ 0 then none
        else
          let newValue := max 0 (c.currentValue - decayAmount)
          if newValue = c.currentValue then none
          else
            some ({ c with currentValue := newValue },
              { componentKey := c.key
                valueBefore := c.currentValue
                valueAfter := newValue
                notes := some "Automatic decay" })

/-! Specification-side definitions used for the refinement comparison of
the composite aggregate (claim C6).  They transcribe the specification's
words: continuous elapsed periods since `lastChecked`, per-component
decayed value `max 0 (value - periods*decayRate)`, a never-checked
component contributing 0, and the aggregate
`⌊Σ (decayed*weight) / Σ weight⌋`, with 0 for zero total weight. -/

/-- Continuous elapsed periods per the specification; a cadence outside
hourly/daily/weekly has no period notion and counts as 0 elapsed. -/
def specPeriodsElapsed (dt : DecayType) (elapsedMs : ℤ) : ℚ :=
  match dt with
  | .hourly => (elapsedMs : ℚ) / 3600000
  | .daily => (elapsedMs : ℚ) / 86400000
  | .weekly => (elapsedMs : ℚ) / 604800000
  | .other _ => 0

/-- Decayed component value per the specification's words. -/
def specDecayedValue (c : Component) (now : ℤ) : ℚ :=
  match c.lastChecked with
  | none => 0
  | some t =>
    max 0 ((c.currentValue : ℚ) -
      specPeriodsElapsed c.decayType (now - t) * c.decayRate)

/-- Composite aggregate per the specification's words:
`⌊Σ (decayed*weight) / Σ weight⌋`, and 0 when the total weight is 0. -/
def specCompositeValue (components : List Component) (now : ℤ) : ℤ :=
  let totalWeight := (components.map (fun c => c.weight)).sum
  if totalWeight = 0 then 0
  else
    ⌊(components.map (fun c => specDecayedValue c now * (c.weight : ℚ))).sum /
      (totalWeight : ℚ)⌋

/-- Deadline of a scheduled slice on the day of `now`: today's occurrence
of the expected HH:MM wall time plus the grace period. -/
def scheduledDeadline (s : SliceRec) (now : ℤ) : ℤ :=
  getStartOfDay now + s.expectedHH * 3600000 + s.expectedMM * 60000 +
    s.gracePeriod.getD 0 * 60000

/-- Number of penalties owed by a scheduled slice at `now`:
`⌊minutesLate / penaltyInterval⌋` with `minutesLate` clamped at 0. -/
def scheduledPenaltiesDue (s : SliceRec) (now : ℤ) : ℤ :=
  (max 0 (minutesElapsed (scheduledDeadline s now) now)).fdiv
    s.penaltyInterval

/-- Two immediate evaluations of the scheduled-slice evaluator at a fixed
`now`, returning both intermediate states. -/
noncomputable def runScheduledTwice (st : EngineState) (now : ℤ) :
    Except String (EngineState × EngineState) :=
  match evaluateScheduledSlice st now with
  | .error e => .error e
  | .ok st1 =>
    match evaluateScheduledSlice st1 now with
    | .error e => .error e
    | .ok st2 => .ok (st1, st2)

/-! Concrete instances used by witnesses and counterexamples. -/

/-- Config with a malformed exponential base, used as the concrete input
of the witness for C3. -/
def sampleBadBaseConfig : SliceSequenceConfig :=
  ⟨.exponential, { base := some (-1) }⟩

/-- Slice of the specification's step-update example: non-composite, index
5, value 2, linear multiplier-1 curves in both directions. -/
def sampleStepSlice : SliceRec :=
  { currentIndex := 5
    currentValue := 2
    isComposite := false
    increaseType := .linear
    increaseParams := { multiplier := some 1 }
    decreaseType := .linear
    decreaseParams := { multiplier := some 1 } }

/-- Linear config with default parameters (multiplier 1, offset 0). -/
def sampleLinearConfig : SliceSequenceConfig := ⟨.linear, {}⟩

/-- Sigmoid config with a negative steepness `k = -2` (and inflection 0):
classified monotonic by `isMonotonicIncreasing` although its value
sequence is strictly decreasing. -/
def sampleSigmoidNegK : SliceSequenceConfig :=
  ⟨.sigmoid, { max := some 100, k := some (-2), inflection := some 0 }⟩

/-- Scheduled slice of the specification's penalty example: report due at
09:00 with 30 minutes grace, one `-1` penalty per 15 minutes late,
non-composite, linear curves. -/
def sampleScheduledSlice : SliceRec :=
  { currentIndex := 5
    currentValue := 5
    isComposite := false
    increaseType := .linear
    increaseParams := { multiplier := some 1 }
    decreaseType := .linear
    decreaseParams := { multiplier := some 1 }
    expectedHH := 9
    expectedMM := 0
    gracePeriod := some 30
    penaltyInterval := 15
    penaltyAmount := -1 }

/-- Timestamp 10:00 on day zero of the epoch, in milliseconds. -/
def tenAM : ℤ := 10 * 3600000

/-- Component at full value checked just now, with weight `w`: the shape
used by the specification's composite aggregation example. -/
def fullComponent (key : String) (w : ℤ) (now : ℤ) : Component :=
  { key := key
    weight := w
    currentValue := 100
    maxValue := 100
    decayType := .daily
    decayRate := 10
    lastChecked := some now }

/-- Composite slice with the specification's 30/25/20/15/10 components,
all at value 100 and just checked. -/
def sampleCompositeState : CompositeState :=
  { isComposite := true
    currentValue := 0
    components :=
      [fullComponent "a" 30 0, fullComponent "b" 25 0, fullComponent "c" 20 0,
        fullComponent "d" 15 0, fullComponent "e" 10 0]
    componentUpdates := [] }

/-- Component used by the decay and check-off witnesses: value 80 of 100,
daily decay of 10 per period, last checked at epoch. -/
def sampleComponent : Component :=
  { key := "teeth"
    weight := 30
    currentValue := 80
    maxValue := 100
    decayType := .daily
    decayRate := 10
    lastChecked := some 0 }

/-- Composite slice holding `sampleComponent` only. -/
def sampleComponentState : CompositeState :=
  { isComposite := true
    currentValue := 80
    components := [sampleComponent]
    componentUpdates := [] }

/-! Auxiliary lemmas about the two closest-index searches. -/

/-- Binary search on a monotone sequence returns an index whose value
equals the target whenever the target occurs in the searched window. -/
theorem binarySearchGo_exact (v : ℤ → ℤ) (hv : Monotone v) (target : ℤ) :
    ∀ left right ci cd,
      (∃ m, left ≤ m ∧ m ≤ right ∧ v m = target) →
      v (binarySearchGo v target left right ci cd) = target := by
  intro left right ci cd
  induction left, right, ci, cd using binarySearchGo.induct v target with
  | case1 left right ci cd hlr mid midValue diff ci2 cd2 hlt ih =>
    intro ⟨m, hm1, hm2, hm3⟩
    rw [binarySearchGo.eq_def]
    have hlt' : v ((left + right) / 2) < target := hlt
    simp only [dif_pos hlr, if_pos hlt']
    apply ih
    refine ⟨m, ?_, hm2, hm3⟩
    by_contra hc
    push_neg at hc
    have hle : v m ≤ v ((left + right) / 2) := hv (by omega)
    omega
  | case2 left right ci cd hlr mid midValue diff ci2 cd2 hnlt hgt ih =>
    intro ⟨m, hm1, hm2, hm3⟩
    rw [binarySearchGo.eq_def]
    have hnlt' : ¬ v ((left + right) / 2) < target := hnlt
    have hgt' : target < v ((left + right) / 2) := hgt
    simp only [dif_pos hlr, if_neg hnlt', if_pos hgt']
    apply ih
    refine ⟨m, hm1, ?_, hm3⟩
    by_contra hc
    push_neg at hc
    have hle : v ((left + right) / 2) ≤ v m := hv (by omega)
    omega
  | case3 left right ci cd hlr mid midValue hnlt hngt =>
    intro _
    rw [binarySearchGo.eq_def]
    have hnlt' : ¬ v ((left + right) / 2) < target := hnlt
    have hngt' : ¬ target < v ((left + right) / 2) := hngt
    simp only [dif_pos hlr, if_neg hnlt', if_neg hngt']
    omega
  | case4 left right ci cd hnlr =>
    intro ⟨m, hm1, hm2, hm3⟩
    omega

/-- Binary search keeps its answer inside any window that contains the
initial candidate and the search bounds. -/
theorem binarySearchGo_range (v : ℤ → ℤ) (target lo hi : ℤ) :
    ∀ left right ci cd, lo ≤ ci → ci ≤ hi → lo ≤ left → right ≤ hi →
      lo ≤ binarySearchGo v target left right ci cd ∧
        binarySearchGo v target left right ci cd ≤ hi := by
  intro left right ci cd
  induction left, right, ci, cd using binarySearchGo.induct v target with
  | case1 left right ci cd hlr mid midValue diff ci2 cd2 hlt ih =>
    intro h1 h2 h3 h4
    have hlt' : v ((left + right) / 2) < target := hlt
    rw [binarySearchGo.eq_def]
    simp only [dif_pos hlr, if_pos hlt']
    have hci : lo ≤ (if |v ((left + right) / 2) - target| < cd then
        (left + right) / 2 else ci) ∧
        (if |v ((left + right) / 2) - target| < cd then
        (left + right) / 2 else ci) ≤ hi := by
      split <;> omega
    exact ih hci.1 hci.2 (by omega) h4
  | case2 left right ci cd hlr mid midValue diff ci2 cd2 hnlt hgt ih =>
    intro h1 h2 h3 h4
    have hnlt' : ¬ v ((left + right) / 2) < target := hnlt
    have hgt' : target < v ((left + right) / 2) := hgt
    rw [binarySearchGo.eq_def]
    simp only [dif_pos hlr, if_neg hnlt', if_pos hgt']
    have hci : lo ≤ (if |v ((left + right) / 2) - target| < cd then
        (left + right) / 2 else ci) ∧
        (if |v ((left + right) / 2) - target| < cd then
        (left + right) / 2 else ci) ≤ hi := by
      split <;> omega
    exact ih hci.1 hci.2 h3 (by omega)
  | case3 left right ci cd hlr mid midValue hnlt hngt =>
    intro h1 h2 h3 h4
    have hnlt' : ¬ v ((left + right) / 2) < target := hnlt
    have hngt' : ¬ target < v ((left + right) / 2) := hngt
    rw [binarySearchGo.eq_def]
    simp only [dif_pos hlr, if_neg hnlt', if_neg hngt']
    omega
  | case4 left right ci cd hnlr =>
    intro h1 h2 h3 h4
    rw [binarySearchGo.eq_def]
    simp only [dif_neg hnlr]
    exact ⟨h1, h2⟩

/-- Linear scan returns an index whose value equals the target whenever
the target occurs among the scanned values or the running best already
matches exactly (`cd` is the absolute difference of the running best). -/
theorem linearSearchGo_exact (v : ℤ → ℤ) (target : ℤ) :
    ∀ i maxI ci cd, cd = |v ci - target| →
      (cd = 0 ∨ ∃ m, i ≤ m ∧ m ≤ maxI ∧ v m = target) →
      v (linearSearchGo v target i maxI ci cd) = target := by
  intro i maxI ci cd
  induction i, maxI, ci, cd using linearSearchGo.induct v target with
  | case1 i maxI ci cd hle value diff hdiff ih =>
    intro hinv hex
    have hdiff' : |v i - target| < cd := hdiff
    rw [linearSearchGo.eq_def]
    simp only [dif_pos hle, if_pos hdiff']
    apply ih rfl
    rcases hex with h0 | ⟨m, hm1, hm2, hm3⟩
    · exfalso
      have := abs_nonneg (v i - target)
      omega
    · rcases eq_or_lt_of_le hm1 with heq | hlt
      · left
        show |v i - target| = 0
        rw [heq, hm3]
        simp
      · right
        exact ⟨m, by omega, hm2, hm3⟩
  | case2 i maxI ci cd hle value diff hdiff ih =>
    intro hinv hex
    have hdiff' : ¬ |v i - target| < cd := hdiff
    rw [linearSearchGo.eq_def]
    simp only [dif_pos hle, if_neg hdiff']
    apply ih hinv
    rcases hex with h0 | ⟨m, hm1, hm2, hm3⟩
    · left; exact h0
    · rcases eq_or_lt_of_le hm1 with heq | hlt
      · left
        have hzero : |v i - target| = 0 := by
          rw [heq, hm3]; simp
        have := abs_nonneg (v ci - target)
        omega
      · right
        exact ⟨m, by omega, hm2, hm3⟩
  | case3 i maxI ci cd hnle =>
    intro hinv hex
    rw [linearSearchGo.eq_def]
    simp only [dif_neg hnle]
    rcases hex with h0 | ⟨m, hm1, hm2, hm3⟩
    · have habs : |v ci - target| = 0 := by omega
      have := abs_eq_zero.mp habs
      omega
    · omega

/-- Linear scan keeps its answer inside any window that contains the
initial candidate and the scan bounds. -/
theorem linearSearchGo_range (v : ℤ → ℤ) (target lo hi : ℤ) :
    ∀ i maxI ci cd, lo ≤ ci → ci ≤ hi → lo ≤ i → maxI ≤ hi →
      lo ≤ linearSearchGo v target i maxI ci cd ∧
        linearSearchGo v target i maxI ci cd ≤ hi := by
  intro i maxI ci cd
  induction i, maxI, ci, cd using linearSearchGo.induct v target with
  | case1 i maxI ci cd hle value diff hdiff ih =>
    intro h1 h2 h3 h4
    have hdiff' : |v i - target| < cd := hdiff
    rw [linearSearchGo.eq_def]
    simp only [dif_pos hle, if_pos hdiff']
    exact ih h3 (by omega) (by omega) h4
  | case2 i maxI ci cd hle value diff hdiff ih =>
    intro h1 h2 h3 h4
    have hdiff' : ¬ |v i - target| < cd := hdiff
    rw [linearSearchGo.eq_def]
    simp only [dif_pos hle, if_neg hdiff']
    exact ih h1 h2 (by omega) h4
  | case3 i maxI ci cd hnle =>
    intro h1 h2 h3 h4
    rw [linearSearchGo.eq_def]
    simp only [dif_neg hnle]
    exact ⟨h1, h2⟩

/-- Closed form of `calculateValue` on a linear config: the rational floor
of `multiplier * clampedIndex + offset`. -/
theorem calculateValue_linear (p : SequenceParams) (i : ℤ) :
    calculateValue ⟨.linear, p⟩ i =
      ⌊(p.multiplier.getD 1 : ℚ) * ((max i 0 : ℤ) : ℚ) +
        (p.offset.getD 0 : ℚ)⌋ := by
  unfold calculateValue calcValueCore calculateLinear
  have hn : ((Int.toNat (max i 0) : ℕ) : ℝ) = ((max i 0 : ℤ) : ℝ) := by
    rw_mod_cast [Int.toNat_of_nonneg (le_max_right i 0)]
  simp only [hn]
  rw [show ((p.multiplier.getD 1 : ℚ) : ℝ) * ((max i 0 : ℤ) : ℝ) +
      ((p.offset.getD 0 : ℚ) : ℝ) =
      (((p.multiplier.getD 1 : ℚ) * ((max i 0 : ℤ) : ℚ) +
        (p.offset.getD 0 : ℚ) : ℚ) : ℝ) by push_cast; ring]
  exact Rat.floor_cast _

/-- When the floored value sequence of a config is monotone, the closest
index found for an achievable target value reproduces that value exactly:
binary search hits an occurrence of the target, and the linear scan keeps
the first zero difference it meets. -/
theorem findClosestIndex_exact (config : SliceSequenceConfig)
    (n maxIndex : ℤ) (hv : Monotone (calculateValue config)) (hn : 0 ≤ n)
    (hmax : n ≤ maxIndex) (hpos : 0 < calculateValue config n) :
    calculateValue config
        (findClosestIndex config (calculateValue config n) maxIndex) =
      calculateValue config n := by
  unfold findClosestIndex
  rw [if_neg (not_le.mpr hpos)]
  by_cases hm : isMonotonicIncreasing config
  · rw [if_pos hm]
    unfold binarySearchIndex
    exact binarySearchGo_exact _ hv _ _ _ _ _ ⟨n, hn, hmax, rfl⟩
  · rw [if_neg hm]
    unfold linearSearchIndex
    apply linearSearchGo_exact _ _ _ _ _ _ rfl
    rcases eq_or_lt_of_le hn with heq | hlt
    · left
      rw [← heq]
      simp
    · right
      exact ⟨n, by omega, hmax, rfl⟩

/-- The closest-index search never leaves `[0, maxIndex]`. -/
theorem findClosestIndex_range (config : SliceSequenceConfig)
    (t maxIndex : ℤ) (hmax : 0 ≤ maxIndex) :
    0 ≤ findClosestIndex config t maxIndex ∧
      findClosestIndex config t maxIndex ≤ maxIndex := by
  unfold findClosestIndex
  split
  · exact ⟨le_refl 0, hmax⟩
  split
  · unfold binarySearchIndex
    exact binarySearchGo_range _ _ 0 maxIndex _ _ _ _ le_rfl hmax le_rfl le_rfl
  · unfold linearSearchIndex
    exact linearSearchGo_range _ _ 0 maxIndex _ _ _ _ le_rfl hmax
      (by omega) le_rfl

/-- Claim C10: `findClosestIndex` called without a `maxIndex` argument
searches `[0, 1000]` — it equals `findClosestIndex config target 1000` for
every config and target — and this default is not the engine-wide
`MAX_INDEX`, which is 10000. -/
theorem C10_findClosestIndex_default_bound :
    (∀ (config : SliceSequenceConfig) (t : ℤ),
      findClosestIndex config t = findClosestIndex config t 1000) ∧
    MAX_INDEX = 10000 :=
  ⟨fun _ _ => rfl, rfl⟩

/-- Claim C3: `calculateValue` is a total function into ℤ for every config
(including malformed parameter bags and unknown types): a negative index
yields the same result as index 0, and every computation error — in
particular an unknown sequence type or a non-positive exponential base —
yields 0 instead of propagating. -/
theorem C3_calculateValue_total_and_clamped (config : SliceSequenceConfig)
    (index : ℤ) :
    (index < 0 → calculateValue config index = calculateValue config 0) ∧
    (∀ e, calcValueCore config (Int.toNat (max index 0)) = .error e →
      calculateValue config index = 0) ∧
    (∀ name, config.type = .other name → calculateValue config index = 0) ∧
    (config.type = .exponential → config.params.base.getD 2 ≤ 0 →
      calculateValue config index = 0) := by
  refine ⟨?_, ?_, ?_, ?_⟩
  · intro hneg
    have harg : Int.toNat (max index 0) = Int.toNat (max (0 : ℤ) 0) := by
      omega
    unfold calculateValue
    rw [harg]
  · intro e he
    unfold calculateValue
    rw [he]
  · intro name hty
    unfold calculateValue calcValueCore
    rw [hty]
  · intro hty hbase
    unfold calculateValue calcValueCore
    rw [hty]
    unfold calculateExponential
    simp only [if_pos hbase]

/-- Witness for C3 at the concrete config `exponential, base = -1` and the
concrete index `-5`. -/
theorem C3_witness :
    ((-5 : ℤ) < 0 ∧
      calculateValue sampleBadBaseConfig (-5) =
        calculateValue sampleBadBaseConfig 0) ∧
    (sampleBadBaseConfig.type = .exponential ∧
      sampleBadBaseConfig.params.base.getD 2 ≤ 0 ∧
      calculateValue sampleBadBaseConfig (-5) = 0) :=
  ⟨⟨by norm_num,
    (C3_calculateValue_total_and_clamped sampleBadBaseConfig (-5)).1
      (by norm_num)⟩,
    rfl, by norm_num [sampleBadBaseConfig],
    (C3_calculateValue_total_and_clamped sampleBadBaseConfig (-5)).2.2.2 rfl
      (by norm_num [sampleBadBaseConfig])⟩

/-- Claim C4: on an existing non-composite slice, `updateBySteps` clamps
the shifted index into `[0, MAX_INDEX]`, picks the increase curve for
`steps ≥ 0` and the decrease curve for `steps < 0`, recomputes the value
from the selected curve at the new index, and prepends exactly one
SliceUpdate row tagged `steps` recording the before/after value and index. -/
theorem C4_updateBySteps_spec (st : EngineState) (now steps : ℤ)
    (notes : Option String) (automatic : Bool)
    (h : st.slice.isComposite = false) :
    ∃ st', updateBySteps st now steps notes automatic = .ok st' ∧
      st'.slice.currentIndex =
        max 0 (min (st.slice.currentIndex + steps) MAX_INDEX) ∧
      (0 ≤ steps → st'.slice.currentValue =
        calculateValue (increaseConfig st.slice) st'.slice.currentIndex) ∧
      (steps < 0 → st'.slice.currentValue =
        calculateValue (decreaseConfig st.slice) st'.slice.currentIndex) ∧
      st'.updates =
        { delta := steps
          deltaType := .steps
          valueBefore := st.slice.currentValue
          valueAfter := st'.slice.currentValue
          indexBefore := st.slice.currentIndex
          indexAfter := st'.slice.currentIndex
          date := now
          notes := notes
          automatic := automatic } :: st.updates := by
  refine ⟨{ slice := updateByStepsPatch st.slice steps
            updates := updateByStepsRow st.slice now steps notes automatic ::
              st.updates }, ?_, ?_, ?_, ?_, ?_⟩
  · unfold updateBySteps
    rw [h]
    simp
  · simp [updateByStepsPatch]
  · intro hs
    simp [updateByStepsPatch, if_pos hs]
  · intro hs
    simp [updateByStepsPatch, if_neg (not_le.mpr hs)]
  · simp [updateByStepsPatch, updateByStepsRow]

/-- Witness for C4 on the specification's example: `+2` steps on index 5 /
value 2 with a linear multiplier-1 increase curve, whose new value at the
new index 7 evaluates to 7. -/
theorem C4_witness :
    sampleStepSlice.isComposite = false ∧
    (∃ st', updateBySteps ⟨sampleStepSlice, []⟩ 0 2 none false = .ok st' ∧
      st'.slice.currentIndex =
        max 0 (min (sampleStepSlice.currentIndex + 2) MAX_INDEX) ∧
      ((0 : ℤ) ≤ 2 → st'.slice.currentValue =
        calculateValue (increaseConfig sampleStepSlice)
          st'.slice.currentIndex) ∧
      ((2 : ℤ) < 0 → st'.slice.currentValue =
        calculateValue (decreaseConfig sampleStepSlice)
          st'.slice.currentIndex) ∧
      st'.updates =
        [{ delta := 2
           deltaType := .steps
           valueBefore := sampleStepSlice.currentValue
           valueAfter := st'.slice.currentValue
           indexBefore := sampleStepSlice.currentIndex
           indexAfter := st'.slice.currentIndex
           date := 0
           notes := none
           automatic := false }]) ∧
    calculateValue (increaseConfig sampleStepSlice) 7 = 7 := by
  refine ⟨rfl, C4_updateBySteps_spec ⟨sampleStepSlice, []⟩ 0 2 none false rfl,
    ?_⟩
  rw [show increaseConfig sampleStepSlice =
    ⟨.linear, { multiplier := some 1 }⟩ from rfl]
  rw [calculateValue_linear]
  norm_num

/-- On the default linear config the floored value at `i` is `max i 0`. -/
theorem calculateValue_sampleLinear (i : ℤ) :
    calculateValue sampleLinearConfig i = max i 0 := by
  unfold sampleLinearConfig
  rw [calculateValue_linear]
  rw [show ((({} : SequenceParams).multiplier.getD 1 : ℚ)) = 1 from rfl,
    show ((({} : SequenceParams).offset.getD 0 : ℚ)) = 0 from rfl]
  rw [one_mul, add_zero, Int.floor_intCast]

/-- The default linear config has a monotone floored value sequence. -/
theorem monotone_sampleLinear : Monotone (calculateValue sampleLinearConfig) := by
  intro a b h
  rw [calculateValue_sampleLinear, calculateValue_sampleLinear]
  omega

/-- Value of the negative-k sigmoid at index 0: `⌊100/(1+e^0)⌋ = 50`. -/
theorem sampleSigmoidNegK_val0 : calculateValue sampleSigmoidNegK 0 = 50 := by
  unfold calculateValue
  rw [show calcValueCore sampleSigmoidNegK (Int.toNat (max (0 : ℤ) 0)) =
      .ok ((100 : ℝ) / (1 + Real.exp 0)) from by
    unfold calcValueCore sampleSigmoidNegK calculateSigmoid
    norm_num]
  rw [Real.exp_zero]
  norm_num

/-- Value of the negative-k sigmoid at index 1: `⌊100/(1+e^2)⌋ = 11`. -/
theorem sampleSigmoidNegK_val1 : calculateValue sampleSigmoidNegK 1 = 11 := by
  have hlo : (2.7182818283 : ℝ) < Real.exp 1 := Real.exp_one_gt_d9
  have hhi : Real.exp 1 < 2.7182818286 := Real.exp_one_lt_d9
  have hexp : Real.exp 2 = Real.exp 1 * Real.exp 1 := by
    rw [← Real.exp_add]
    norm_num
  have h2lo : (7.389 : ℝ) < Real.exp 2 := by
    rw [hexp]
    nlinarith
  have h2hi : Real.exp 2 < 7.3891 := by
    rw [hexp]
    nlinarith
  have hpos : (0 : ℝ) < 1 + Real.exp 2 := by positivity
  unfold calculateValue
  rw [show calcValueCore sampleSigmoidNegK (Int.toNat (max (1 : ℤ) 0)) =
      .ok ((100 : ℝ) / (1 + Real.exp 2)) from by
    unfold calcValueCore sampleSigmoidNegK calculateSigmoid
    norm_num]
  have hfl : ⌊(100 : ℝ) / (1 + Real.exp 2)⌋ = 11 := by
    rw [Int.floor_eq_iff]
    push_cast
    constructor
    · rw [le_div_iff₀ hpos]
      nlinarith
    · rw [div_lt_iff₀ hpos]
      nlinarith
  exact hfl

/-- Claim C5 (amended): the exact-match guarantee holds for every config
whose floored value sequence really is monotone — the listed families with
non-negative multiplier or base at least 1, but sigmoid only with
non-negative steepness; for such configs `findClosestIndex` hits an index
with exactly the target value whenever the target is the value at some
`n ∈ [0, maxIndex]` and positive, and for every config the search returns
0 as soon as the target is non-positive. -/
theorem C5_closest_index_exact_when_monotone (config : SliceSequenceConfig)
    (n maxIndex : ℤ) (hv : Monotone (calculateValue config)) (hn : 0 ≤ n)
    (hmax : n ≤ maxIndex) (hpos : 0 < calculateValue config n) :
    calculateValue config
        (findClosestIndex config (calculateValue config n) maxIndex) =
      calculateValue config n ∧
    (∀ (c : SliceSequenceConfig) (t mi : ℤ), t ≤ 0 →
      findClosestIndex c t mi = 0) := by
  constructor
  · exact findClosestIndex_exact config n maxIndex hv hn hmax hpos
  · intro c t mi ht
    unfold findClosestIndex
    rw [if_pos ht]

/-- Witness for the amended C5 on the default linear config, searching for
the value at index 2 within `[0, 5]`. -/
theorem C5_witness :
    Monotone (calculateValue sampleLinearConfig) ∧ (0 : ℤ) ≤ 2 ∧
    (2 : ℤ) ≤ 5 ∧ 0 < calculateValue sampleLinearConfig 2 ∧
    (calculateValue sampleLinearConfig
        (findClosestIndex sampleLinearConfig
          (calculateValue sampleLinearConfig 2) 5) =
      calculateValue sampleLinearConfig 2 ∧
    (∀ (c : SliceSequenceConfig) (t mi : ℤ), t ≤ 0 →
      findClosestIndex c t mi = 0)) :=
  ⟨monotone_sampleLinear, by norm_num, by norm_num,
    by rw [calculateValue_sampleLinear]; norm_num,
    C5_closest_index_exact_when_monotone sampleLinearConfig 2 5
      monotone_sampleLinear (by norm_num) (by norm_num)
      (by rw [calculateValue_sampleLinear]; norm_num)⟩

/-- Counterexample to C5 as stated: the sigmoid config with `k = -2` is in
the claim's family (sigmoid is always classified monotonic), the target
`calculateValue config 1 = 11` is positive and achievable at `n = 1` within
`maxIndex = 1`, yet the binary search returns index 0, whose value is 50,
not an exact match. -/
theorem C5_counterexample :
    isMonotonicIncreasing sampleSigmoidNegK = true ∧
    (0 : ℤ) ≤ 1 ∧ (1 : ℤ) ≤ 1 ∧
    0 < calculateValue sampleSigmoidNegK 1 ∧
    findClosestIndex sampleSigmoidNegK
      (calculateValue sampleSigmoidNegK 1) 1 = 0 ∧
    calculateValue sampleSigmoidNegK 0 = 50 ∧
    calculateValue sampleSigmoidNegK 1 = 11 := by
  have ha := sampleSigmoidNegK_val0
  have hb := sampleSigmoidNegK_val1
  refine ⟨rfl, by norm_num, by norm_num, by rw [hb]; norm_num, ?_, ha, hb⟩
  rw [hb]
  unfold findClosestIndex
  rw [if_neg (by norm_num : ¬(11 : ℤ) ≤ 0)]
  rw [if_pos (show isMonotonicIncreasing sampleSigmoidNegK = true from rfl)]
  unfold binarySearchIndex
  rw [ha]
  rw [show |(50 : ℤ) - 11| = 39 from by norm_num]
  rw [binarySearchGo.eq_def]
  norm_num [ha]
  rw [binarySearchGo.eq_def]
  norm_num

/-- Claim C7: starting from a slice whose index lies in `[0, MAX_INDEX]`,
every index-mutating operation — step update, percentage update, absolute
update, the scheduled automatic penalty, and the daily reset — leaves the
index in `[0, MAX_INDEX]`. -/
theorem C7_index_stays_in_range (st : EngineState)
    (hlo : 0 ≤ st.slice.currentIndex)
    (hhi : st.slice.currentIndex ≤ MAX_INDEX) :
    (∀ now steps notes automatic st',
      updateBySteps st now steps notes automatic = .ok st' →
      0 ≤ st'.slice.currentIndex ∧ st'.slice.currentIndex ≤ MAX_INDEX) ∧
    (∀ now percentage notes st',
      updateByPercentage st now percentage notes = .ok st' →
      0 ≤ st'.slice.currentIndex ∧ st'.slice.currentIndex ≤ MAX_INDEX) ∧
    (∀ now value notes st',
      updateToValue st now value notes = .ok st' →
      0 ≤ st'.slice.currentIndex ∧ st'.slice.currentIndex ≤ MAX_INDEX) ∧
    (∀ now st', evaluateScheduledSlice st now = .ok st' →
      0 ≤ st'.slice.currentIndex ∧ st'.slice.currentIndex ≤ MAX_INDEX) ∧
    (0 ≤ (resetDailySlice st).slice.currentIndex ∧
      (resetDailySlice st).slice.currentIndex ≤ MAX_INDEX) := by
  have hmax0 : (0 : ℤ) ≤ MAX_INDEX := by norm_num [MAX_INDEX]
  have hstep : ∀ (st0 : EngineState) now steps notes automatic st',
      updateBySteps st0 now steps notes automatic = .ok st' →
      0 ≤ st'.slice.currentIndex ∧ st'.slice.currentIndex ≤ MAX_INDEX := by
    intro st0 now steps notes automatic st' h
    unfold updateBySteps at h
    by_cases hc : st0.slice.isComposite = true
    · rw [if_pos hc] at h
      simp at h
    · rw [if_neg hc] at h
      injection h with h2
      subst h2
      simp only [updateByStepsPatch]
      omega
  refine ⟨fun now steps notes automatic st' h =>
    hstep st now steps notes automatic st' h, ?_, ?_, ?_, ?_⟩
  · intro now percentage notes st' h
    unfold updateByPercentage at h
    by_cases hc : st.slice.isComposite = true
    · rw [if_pos hc] at h
      simp at h
    · rw [if_neg hc] at h
      injection h with h2
      subst h2
      simp only
      exact findClosestIndex_range _ _ _ hmax0
  · intro now value notes st' h
    unfold updateToValue at h
    by_cases hc : st.slice.isComposite = true
    · rw [if_pos hc] at h
      simp at h
    · rw [if_neg hc] at h
      by_cases hv : value < 0
      · rw [if_pos hv] at h
        simp at h
      · rw [if_neg hv] at h
        injection h with h2
        subst h2
        simp only
        exact findClosestIndex_range _ _ _ hmax0
  · intro now st' h
    simp only [evaluateScheduledSlice] at h
    repeat' split at h
    all_goals try (injection h with h2; subst h2; exact ⟨hlo, hhi⟩)
    all_goals exact hstep st now _ _ _ st' h
  · constructor
    · simp [resetDailySlice]
    · simp [resetDailySlice]
      exact hmax0

/-- Witness for C7 on a concrete slice at index 5, instantiated at the
step update. -/
theorem C7_witness :
    (0 : ℤ) ≤ sampleStepSlice.currentIndex ∧
    sampleStepSlice.currentIndex ≤ MAX_INDEX ∧
    (∀ now steps notes automatic st',
      updateBySteps ⟨sampleStepSlice, []⟩ now steps notes automatic =
        .ok st' →
      0 ≤ st'.slice.currentIndex ∧ st'.slice.currentIndex ≤ MAX_INDEX) :=
  ⟨by norm_num [sampleStepSlice], by norm_num [sampleStepSlice, MAX_INDEX],
    (C7_index_stays_in_range ⟨sampleStepSlice, []⟩
      (by norm_num [sampleStepSlice])
      (by norm_num [sampleStepSlice, MAX_INDEX])).1⟩

/-- First component of `isPastScheduledTime` on a slice's schedule fields. -/
theorem isPastScheduledTime_slice_fst (s : SliceRec) (now : ℤ) :
    (isPastScheduledTime s.expectedHH s.expectedMM (s.gracePeriod.getD 0)
      now).1 = decide (scheduledDeadline s now < now) := rfl

/-- Second component of `isPastScheduledTime` on a slice's schedule
fields. -/
theorem isPastScheduledTime_slice_snd (s : SliceRec) (now : ℤ) :
    (isPastScheduledTime s.expectedHH s.expectedMM (s.gracePeriod.getD 0)
      now).2 = max 0 (minutesElapsed (scheduledDeadline s now) now) := rfl

/-- Midnight of a day never lies after any instant of that day. -/
theorem getStartOfDay_le (d : ℤ) : getStartOfDay d ≤ d := by
  unfold getStartOfDay
  rw [Int.fdiv_eq_ediv _ (by norm_num)]
  omega

/-- The step update leaves every field of the slice other than the current
index and value untouched. -/
theorem updateByStepsPatch_fields (s : SliceRec) (steps : ℤ) :
    scheduledDeadline (updateByStepsPatch s steps) = scheduledDeadline s ∧
    (updateByStepsPatch s steps).penaltyInterval = s.penaltyInterval ∧
    (updateByStepsPatch s steps).penaltyAmount = s.penaltyAmount ∧
    (updateByStepsPatch s steps).isComposite = s.isComposite := by
  refine ⟨funext fun now => ?_, rfl, rfl, rfl⟩
  simp [updateByStepsPatch, scheduledDeadline]

/-- Evaluation of a scheduled slice that has not been user-reported today
and is past its deadline with at least one penalty due: it reduces to the
count-and-apply step over the automatic rows recorded today. -/
theorem evaluateScheduledSlice_applies (st : EngineState) (now : ℤ)
    (hnr : (match st.updates.head? with
      | some u => !u.automatic && isSameDay u.date now
      | none => false) = false)
    (hpast : scheduledDeadline st.slice now < now)
    (hD : 1 ≤ scheduledPenaltiesDue st.slice now) :
    evaluateScheduledSlice st now =
      if 0 < max 0 (scheduledPenaltiesDue st.slice now -
          ((st.updates.filter (fun u => u.automatic &&
            decide (getStartOfDay now ≤ u.date))).length : ℤ)) then
        updateBySteps st now
          (max 0 (scheduledPenaltiesDue st.slice now -
            ((st.updates.filter (fun u => u.automatic &&
              decide (getStartOfDay now ≤ u.date))).length : ℤ)) *
            st.slice.penaltyAmount) (some "Scheduled penalty") true
      else .ok st := by
  simp only [evaluateScheduledSlice]
  rw [if_neg (by rw [hnr]; exact Bool.false_ne_true)]
  rw [isPastScheduledTime_slice_fst]
  rw [decide_eq_true hpast]
  rw [show (!true) = false from rfl]
  rw [if_neg Bool.false_ne_true]
  rw [isPastScheduledTime_slice_snd]
  rw [show (max 0 (minutesElapsed (scheduledDeadline st.slice now)
    now)).fdiv st.slice.penaltyInterval =
    scheduledPenaltiesDue st.slice now from rfl]
  rw [if_neg (by omega)]


/-- Projection of the audit row written by `updateBySteps`: automatic flag. -/
theorem updateByStepsRow_automatic (s : SliceRec) (now steps : ℤ)
    (notes : Option String) (automatic : Bool) :
    (updateByStepsRow s now steps notes automatic).automatic = automatic :=
  rfl

/-- Projection of the audit row written by `updateBySteps`: date. -/
theorem updateByStepsRow_date (s : SliceRec) (now steps : ℤ)
    (notes : Option String) (automatic : Bool) :
    (updateByStepsRow s now steps notes automatic).date = now := rfl

/-- Projection of the audit row written by `updateBySteps`: delta. -/
theorem updateByStepsRow_delta (s : SliceRec) (now steps : ℤ)
    (notes : Option String) (automatic : Bool) :
    (updateByStepsRow s now steps notes automatic).delta = steps := rfl

/-- Second evaluation of a scheduled slice whose only update is the
automatic penalty row written moments earlier at the same `now`: it is a
no-op exactly when one penalty was due, and applies the remaining
`D - 1` penalties as a second automatic row when `D ≥ 2`. -/
theorem scheduled_second_run (st1 : EngineState) (now D amt : ℤ)
    (hcomp1 : st1.slice.isComposite = false)
    (hpast1 : scheduledDeadline st1.slice now < now)
    (hPI : scheduledPenaltiesDue st1.slice now = D)
    (hamt : st1.slice.penaltyAmount = amt)
    (hupd1 : ∃ r, st1.updates = [r] ∧ r.automatic = true ∧ r.date = now)
    (hD : 1 ≤ D) :
    (D = 1 → evaluateScheduledSlice st1 now = .ok st1) ∧
    (2 ≤ D → ∃ st2, evaluateScheduledSlice st1 now = .ok st2 ∧
      st2.updates.length = 2 ∧
      ∃ r2, st2.updates.head? = some r2 ∧ r2.automatic = true ∧
        r2.delta = (D - 1) * amt) := by
  obtain ⟨r, hlist, hauto, hdate⟩ := hupd1
  have hnr : (match st1.updates.head? with
      | some u => !u.automatic && isSameDay u.date now
      | none => false) = false := by
    rw [hlist]
    simp [hauto]
  have happ := evaluateScheduledSlice_applies st1 now hnr hpast1
    (by rw [hPI]; exact hD)
  have hflen : ((List.filter (fun u => u.automatic &&
      decide (getStartOfDay now ≤ u.date)) [r]).length : ℤ) = 1 := by
    have hpr : (r.automatic && decide (getStartOfDay now ≤ r.date)) =
        true := by
      rw [hauto, hdate]
      simp [getStartOfDay_le now]
    simp [List.filter_cons, hpr]
  rw [hlist, hflen, hPI] at happ
  constructor
  · intro h1
    rw [happ, h1]
    norm_num
  · intro h2
    rw [happ]
    rw [show max 0 (D - 1) = D - 1 from by omega]
    rw [if_pos (by omega)]
    unfold updateBySteps
    rw [if_neg (by rw [hcomp1]; exact Bool.false_ne_true)]
    refine ⟨_, rfl, ?_, ?_⟩
    · rw [hlist]
      rfl
    · refine ⟨_, rfl, updateByStepsRow_automatic _ _ _ _ _, ?_⟩
      rw [updateByStepsRow_delta, hamt]

/-- Two immediate runs of the scheduled evaluator at a fixed `now` on a
slice with no updates yet: the first run writes exactly one aggregated
automatic row with the full `penaltiesDue * penaltyAmount` delta; the
second run is a no-op precisely when a single penalty was due, and writes
a second automatic row carrying the remaining `penaltiesDue - 1` penalties
whenever `penaltiesDue ≥ 2`. -/
theorem scheduled_double_run (st : EngineState) (now : ℤ)
    (hcomp : st.slice.isComposite = false)
    (hupd : st.updates = [])
    (hpast : scheduledDeadline st.slice now < now)
    (hD : 1 ≤ scheduledPenaltiesDue st.slice now) :
    ∃ st1, evaluateScheduledSlice st now = .ok st1 ∧
      st1.updates.length = 1 ∧
      (∃ r, st1.updates = [r] ∧ r.automatic = true ∧ r.date = now ∧
        r.delta = scheduledPenaltiesDue st.slice now *
          st.slice.penaltyAmount) ∧
      (scheduledPenaltiesDue st.slice now = 1 →
        evaluateScheduledSlice st1 now = .ok st1) ∧
      (2 ≤ scheduledPenaltiesDue st.slice now →
        ∃ st2, evaluateScheduledSlice st1 now = .ok st2 ∧
          st2.updates.length = 2 ∧
          ∃ r2, st2.updates.head? = some r2 ∧ r2.automatic = true ∧
            r2.delta = (scheduledPenaltiesDue st.slice now - 1) *
              st.slice.penaltyAmount) := by
  have h1 := evaluateScheduledSlice_applies st now (by rw [hupd]; rfl)
    hpast hD
  rw [hupd] at h1
  simp only [List.filter_nil, List.length_nil, Nat.cast_zero, sub_zero] at h1
  rw [show max 0 (scheduledPenaltiesDue st.slice now) =
    scheduledPenaltiesDue st.slice now from by omega] at h1
  rw [if_pos (by omega)] at h1
  unfold updateBySteps at h1
  rw [if_neg (by rw [hcomp]; exact Bool.false_ne_true), hupd] at h1
  refine ⟨_, h1, rfl,
    ⟨_, rfl, updateByStepsRow_automatic _ _ _ _ _,
      updateByStepsRow_date _ _ _ _ _, updateByStepsRow_delta _ _ _ _ _⟩,
    ?_, ?_⟩
  · refine (scheduled_second_run _ now _ st.slice.penaltyAmount ?_ ?_ ?_ ?_
      ?_ hD).1
    · dsimp only
      rw [show (updateByStepsPatch st.slice (scheduledPenaltiesDue st.slice
        now * st.slice.penaltyAmount)).isComposite = st.slice.isComposite
        from (updateByStepsPatch_fields st.slice _).2.2.2]
      exact hcomp
    · dsimp only
      rw [(updateByStepsPatch_fields st.slice _).1]
      exact hpast
    · dsimp only
      unfold scheduledPenaltiesDue
      rw [(updateByStepsPatch_fields st.slice _).1,
        (updateByStepsPatch_fields st.slice _).2.1]
    · exact (updateByStepsPatch_fields st.slice _).2.2.1
    · exact ⟨_, rfl, updateByStepsRow_automatic _ _ _ _ _,
        updateByStepsRow_date _ _ _ _ _⟩
  · refine (scheduled_second_run _ now _ st.slice.penaltyAmount ?_ ?_ ?_ ?_
      ?_ hD).2
    · dsimp only
      rw [show (updateByStepsPatch st.slice (scheduledPenaltiesDue st.slice
        now * st.slice.penaltyAmount)).isComposite = st.slice.isComposite
        from (updateByStepsPatch_fields st.slice _).2.2.2]
      exact hcomp
    · dsimp only
      rw [(updateByStepsPatch_fields st.slice _).1]
      exact hpast
    · dsimp only
      unfold scheduledPenaltiesDue
      rw [(updateByStepsPatch_fields st.slice _).1,
        (updateByStepsPatch_fields st.slice _).2.1]
    · exact (updateByStepsPatch_fields st.slice _).2.2.1
    · exact ⟨_, rfl, updateByStepsRow_automatic _ _ _ _ _,
        updateByStepsRow_date _ _ _ _ _⟩

/-- Claim C1 (amended): for a scheduled slice past its deadline at a fixed
`now` with no updates yet, the first evaluation writes one aggregated
automatic SliceUpdate row; an immediately repeated evaluation subtracts the
count of automatic rows recorded today (which the first run incremented by
one, not by `penaltiesDue`), so the second run computes
`penaltiesToApply = max 0 (penaltiesDue - 1)`: it writes no row only when
`penaltiesDue = 1`, and for `penaltiesDue ≥ 2` it writes a second automatic
row carrying the remaining `penaltiesDue - 1` penalties. -/
theorem C1_scheduled_evaluation_row_counting (st : EngineState) (now : ℤ)
    (hcomp : st.slice.isComposite = false)
    (hupd : st.updates = [])
    (hpast : scheduledDeadline st.slice now < now)
    (hD : 1 ≤ scheduledPenaltiesDue st.slice now) :
    ∃ st1, evaluateScheduledSlice st now = .ok st1 ∧
      st1.updates.length = 1 ∧
      (∃ r, st1.updates = [r] ∧ r.automatic = true ∧ r.date = now ∧
        r.delta = scheduledPenaltiesDue st.slice now *
          st.slice.penaltyAmount) ∧
      (scheduledPenaltiesDue st.slice now = 1 →
        evaluateScheduledSlice st1 now = .ok st1) ∧
      (2 ≤ scheduledPenaltiesDue st.slice now →
        ∃ st2, evaluateScheduledSlice st1 now = .ok st2 ∧
          st2.updates.length = 2 ∧
          ∃ r2, st2.updates.head? = some r2 ∧ r2.automatic = true ∧
            r2.delta = (scheduledPenaltiesDue st.slice now - 1) *
              st.slice.penaltyAmount) :=
  scheduled_double_run st now hcomp hupd hpast hD

/-- Witness for the amended C1 at the specification's example: deadline
09:00 + 30 minutes grace, `now` = 10:00, penalty interval 15 minutes, so
two penalties are due. -/
theorem C1_witness :
    ((⟨sampleScheduledSlice, []⟩ : EngineState)).slice.isComposite = false ∧
    ((⟨sampleScheduledSlice, []⟩ : EngineState)).updates = [] ∧
    scheduledDeadline sampleScheduledSlice tenAM < tenAM ∧
    1 ≤ scheduledPenaltiesDue sampleScheduledSlice tenAM ∧
    (∃ st1, evaluateScheduledSlice ⟨sampleScheduledSlice, []⟩ tenAM =
        .ok st1 ∧
      st1.updates.length = 1 ∧
      (∃ r, st1.updates = [r] ∧ r.automatic = true ∧ r.date = tenAM ∧
        r.delta = scheduledPenaltiesDue sampleScheduledSlice tenAM *
          sampleScheduledSlice.penaltyAmount) ∧
      (scheduledPenaltiesDue sampleScheduledSlice tenAM = 1 →
        evaluateScheduledSlice st1 tenAM = .ok st1) ∧
      (2 ≤ scheduledPenaltiesDue sampleScheduledSlice tenAM →
        ∃ st2, evaluateScheduledSlice st1 tenAM = .ok st2 ∧
          st2.updates.length = 2 ∧
          ∃ r2, st2.updates.head? = some r2 ∧ r2.automatic = true ∧
            r2.delta = (scheduledPenaltiesDue sampleScheduledSlice tenAM
              - 1) * sampleScheduledSlice.penaltyAmount)) :=
  ⟨rfl, rfl, by decide, by decide,
    C1_scheduled_evaluation_row_counting ⟨sampleScheduledSlice, []⟩ tenAM
      rfl rfl (by decide) (by decide)⟩

/-- Counterexample to C1 as stated: with two penalties due (deadline 09:30,
`now` 10:00, interval 15) and no prior updates, the first run leaves one
SliceUpdate row and the second immediate run — time unchanged — writes a
second row instead of computing `penaltiesToApply = 0`. -/
theorem C1_counterexample :
    scheduledPenaltiesDue sampleScheduledSlice tenAM = 2 ∧
    (runScheduledTwice ⟨sampleScheduledSlice, []⟩ tenAM).toOption.map
      (fun p => (p.1.updates.length, p.2.updates.length)) =
      some (1, 2) := by
  obtain ⟨st1, h1, hlen1, -, -, himp⟩ :=
    scheduled_double_run ⟨sampleScheduledSlice, []⟩ tenAM rfl rfl
      (by decide) (by decide)
  obtain ⟨st2, h2, hlen2, -⟩ := himp (by decide)
  refine ⟨by decide, ?_⟩
  unfold runScheduledTwice
  rw [h1]
  dsimp only
  rw [h2]
  simp [Except.toOption, hlen1, hlen2]

/-- Claim C2: `updateBySteps` issues its two store writes — the SliceUpdate
creation and the slice mutation — as separate sequential calls with no
surrounding storage transaction, so a persistence fault between them leaves
the store with an audit row whose after-fields disagree with the persisted
slice: on the example slice (index 5, value 2, +2 steps) the fault state
holds a row claiming `valueAfter = 7` while the slice still carries
`currentValue = 2`. -/
theorem C2_fault_between_writes :
    (updateByStepsAfterFirstWrite ⟨sampleStepSlice, []⟩ 0 2 none
      false).slice = sampleStepSlice ∧
    ((updateByStepsAfterFirstWrite ⟨sampleStepSlice, []⟩ 0 2 none
      false).updates.head?.map (fun r => (r.valueBefore, r.valueAfter))) =
      some (2, 7) ∧
    (updateByStepsAfterFirstWrite ⟨sampleStepSlice, []⟩ 0 2 none
      false).slice.currentValue = 2 ∧
    (2 : ℤ) ≠ 7 := by
  refine ⟨rfl, ?_, rfl, by norm_num⟩
  simp only [updateByStepsAfterFirstWrite, List.head?_cons, Option.map_some']
  have hval : calculateValue (if (0 : ℤ) ≤ 2 then
      increaseConfig sampleStepSlice else decreaseConfig sampleStepSlice)
      (max 0 (min (sampleStepSlice.currentIndex + 2) MAX_INDEX)) = 7 := by
    rw [if_pos (by norm_num)]
    rw [show increaseConfig sampleStepSlice =
      ⟨.linear, { multiplier := some 1 }⟩ from rfl]
    rw [calculateValue_linear]
    norm_num [sampleStepSlice, MAX_INDEX]
  simp only [updateByStepsRow]
  rw [hval]
  rfl

/-- Claim C6: for components with non-negative stored values, the
aggregated composite value computed by the service — weighted sum of
continuously-decayed component values with weights scaled by 100, floored
after normalization — equals the specification's
`⌊Σ (decayedValue*weight) / Σ weight⌋`, where a never-checked component
contributes 0 and a zero total weight yields 0. -/
theorem C6_composite_refines_spec (components : List Component) (now : ℤ)
    (hv : ∀ c ∈ components, 0 ≤ c.currentValue) :
    calculateCompositeValue components now =
      specCompositeValue components now := by
  have hdec : ∀ c ∈ components, applyDecay c now = specDecayedValue c now := by
    intro c hc
    unfold applyDecay specDecayedValue specPeriodsElapsed
    cases hl : c.lastChecked with
    | none => rfl
    | some t =>
      cases hd : c.decayType with
      | hourly => rfl
      | daily => rfl
      | weekly => rfl
      | other name =>
        dsimp only
        rw [zero_mul, sub_zero]
        rw [max_eq_right]
        exact_mod_cast hv c hc
  have hnum : ∀ (l : List Component),
      (∀ c ∈ l, applyDecay c now = specDecayedValue c now) →
      ((l.map (fun c => applyDecay c now * ((c.weight : ℚ) / 100))).sum) *
        100 =
        (l.map (fun c => specDecayedValue c now * (c.weight : ℚ))).sum := by
    intro l
    induction l with
    | nil =>
      intro _
      simp
    | cons a t ih =>
      intro h
      simp only [List.map_cons, List.sum_cons, add_mul]
      rw [h a (by simp), ih (fun c hc => h c (by simp [hc]))]
      ring
  unfold calculateCompositeValue specCompositeValue
  by_cases hempty : components = []
  · subst hempty
    simp
  · rw [if_neg hempty]
    by_cases hw : (components.map (fun c => c.weight)).sum = 0
    · rw [if_pos hw, if_pos hw]
    · rw [if_neg hw, if_neg hw]
      rw [hnum components hdec]

/-- Witness for C6 on the specification's example: five components
weighted 30/25/20/15/10, all at value 100 and checked at `now`, whose
aggregate — by either formula — is 100. -/
theorem C6_witness :
    (∀ c ∈ sampleCompositeState.components, 0 ≤ c.currentValue) ∧
    calculateCompositeValue sampleCompositeState.components 0 =
      specCompositeValue sampleCompositeState.components 0 ∧
    calculateCompositeValue sampleCompositeState.components 0 = 100 :=
  ⟨by decide,
    C6_composite_refines_spec sampleCompositeState.components 0 (by decide),
    by norm_num +decide [calculateCompositeValue, sampleCompositeState,
      fullComponent, applyDecay]⟩

/-- Updating the first key-matching component through a key-preserving
function moves the update into the result of a key lookup. -/
theorem find?_updateFirstComponent (l : List Component) (key : String)
    (f : Component → Component) (hf : ∀ x, (f x).key = x.key)
    (c : Component) (h : l.find? (fun x => x.key = key) = some c) :
    (updateFirstComponent l key f).find? (fun x => x.key = key) =
      some (f c) := by
  induction l with
  | nil => simp at h
  | cons a t ih =>
    unfold updateFirstComponent
    by_cases ha : a.key = key
    · rw [if_pos ha]
      rw [List.find?_cons_of_pos _ (by simp [ha])] at h
      injection h with h2
      subst h2
      rw [List.find?_cons_of_pos _ (by simp [hf, ha])]
    · rw [if_neg ha]
      rw [List.find?_cons_of_neg _ (by simp [ha])] at h
      rw [List.find?_cons_of_neg _ (by simp [ha])]
      exact ih h

/-- Claim C8: component decay modifies only the component's current value
and reports the audit row to append — it never changes `lastChecked` (nor
any other field); `lastChecked` is set to the current time by the explicit
check-off `updateComponent`. -/
theorem C8_decay_never_touches_lastChecked (c : Component) (now : ℤ) :
    (∀ c' row, decayComponent c now = some (c', row) →
      c'.lastChecked = c.lastChecked ∧
      c' = { c with currentValue := c'.currentValue } ∧
      row.valueBefore = c.currentValue ∧
      row.valueAfter = c'.currentValue) ∧
    (∀ (cs : CompositeState) (key : String) (v : Option ℤ)
      (notes : Option String) (now' : ℤ) (cs' : CompositeState),
      updateComponent cs key v notes now' = .ok cs' →
      ∃ c0, cs'.components.find? (fun x => x.key = key) = some c0 ∧
        c0.lastChecked = some now') := by
  constructor
  · intro c' row h
    unfold decayComponent at h
    repeat' (first | (split at h) | (dsimp only at h))
    all_goals try exact Option.noConfusion h
    all_goals
      injection h with h2
      obtain ⟨hA, hB⟩ := Prod.mk.inj h2
      rw [← hA, ← hB]
      exact ⟨rfl, rfl, rfl, rfl⟩
  · intro cs key v notes now' cs' h
    unfold updateComponent at h
    split at h
    · exact absurd h (by simp)
    · split at h
      · exact absurd h (by simp)
      · rename_i component hfind
        dsimp only at h
        split at h
        · exact absurd h (by simp)
        · injection h with h2
          subst h2
          have hf := find?_updateFirstComponent cs.components key
            (fun c => { c with currentValue := v.getD component.maxValue, lastChecked := some now' })
            (fun x => rfl) component hfind
          exact ⟨_, hf, rfl⟩

/-- Witness for C8: a component at 80/100 checked a day ago, decayed by
one daily period of 10, keeps its `lastChecked`; the explicit check-off to
value 60 stamps `lastChecked` with the current time. -/
theorem C8_witness :
    (∃ c' row, decayComponent sampleComponent 86400000 = some (c', row) ∧
      c'.lastChecked = sampleComponent.lastChecked ∧
      c' = { sampleComponent with currentValue := c'.currentValue }) ∧
    (∃ cs', updateComponent sampleComponentState "teeth" (some 60) none 5 =
        .ok cs' ∧
      ∃ c0, cs'.components.find? (fun x => x.key = "teeth") = some c0 ∧
        c0.lastChecked = some 5) := by
  have hper : daysElapsed 0 86400000 = 1 := by
    unfold daysElapsed hoursElapsed
    rw [show minutesElapsed 0 86400000 = 1440 from by decide]
    norm_num
  constructor
  · have heq : decayComponent sampleComponent 86400000 =
        some ({ sampleComponent with currentValue := 70 },
          ⟨"teeth", 80, 70, some "Automatic decay"⟩) := by
      unfold decayComponent
      rw [show sampleComponent.lastChecked = some 0 from rfl]
      dsimp only
      rw [show sampleComponent.decayType = DecayType.daily from rfl]
      dsimp only
      rw [hper]
      norm_num [sampleComponent]
    obtain ⟨h1, h2, -, -⟩ :=
      (C8_decay_never_touches_lastChecked sampleComponent 86400000).1 _ _ heq
    exact ⟨_, _, heq, h1, h2⟩
  · have hok : ∃ cs',
        updateComponent sampleComponentState "teeth" (some 60) none 5 =
          .ok cs' := by
      unfold updateComponent
      rw [show sampleComponentState.isComposite = true from rfl]
      simp only [Bool.not_true]
      rw [if_neg Bool.false_ne_true]
      rw [show sampleComponentState.components.find?
        (fun c => c.key = "teeth") = some sampleComponent from rfl]
      dsimp only [Option.getD]
      rw [if_neg (by norm_num [sampleComponent])]
      exact ⟨_, rfl⟩
    obtain ⟨cs', hok⟩ := hok
    exact ⟨cs', hok,
      (C8_decay_never_touches_lastChecked sampleComponent 0).2 _ _ _ _ _ _
        hok⟩

/-- Claim C9: calling `updateComponent` with the explicit value 0 sets the
component's value to 0 and passes the range check; the default-to-maxValue
check-off applies only when the value argument is omitted. -/
theorem C9_explicit_zero_is_not_checkoff (cs : CompositeState)
    (key : String) (notes : Option String) (now : ℤ) (c : Component)
    (hcomp : cs.isComposite = true)
    (hfind : cs.components.find? (fun x => x.key = key) = some c)
    (hmax : 0 ≤ c.maxValue) :
    (∃ cs', updateComponent cs key (some 0) notes now = .ok cs' ∧
      ∃ c0, cs'.components.find? (fun x => x.key = key) = some c0 ∧
        c0.currentValue = 0 ∧ c0.lastChecked = some now) ∧
    (∃ cs', updateComponent cs key none notes now = .ok cs' ∧
      ∃ c0, cs'.components.find? (fun x => x.key = key) = some c0 ∧
        c0.currentValue = c.maxValue ∧ c0.lastChecked = some now) := by
  constructor
  · unfold updateComponent
    rw [hcomp]
    simp only [Bool.not_true]
    rw [if_neg Bool.false_ne_true]
    rw [hfind]
    dsimp only [Option.getD]
    rw [if_neg (by omega)]
    have hf := find?_updateFirstComponent cs.components key
      (fun x => { x with currentValue := (0 : ℤ), lastChecked := some now })
      (fun x => rfl) c hfind
    exact ⟨_, rfl, _, hf, rfl, rfl⟩
  · unfold updateComponent
    rw [hcomp]
    simp only [Bool.not_true]
    rw [if_neg Bool.false_ne_true]
    rw [hfind]
    dsimp only [Option.getD]
    rw [if_neg (by omega)]
    have hf := find?_updateFirstComponent cs.components key
      (fun x => { x with currentValue := c.maxValue, lastChecked := some now })
      (fun x => rfl) c hfind
    exact ⟨_, rfl, _, hf, rfl, rfl⟩

/-- Witness for C9 on the 80/100 component: explicit 0 drives the value to
0, omission drives it to 100. -/
theorem C9_witness :
    sampleComponentState.isComposite = true ∧
    sampleComponentState.components.find? (fun x => x.key = "teeth") =
      some sampleComponent ∧
    0 ≤ sampleComponent.maxValue ∧
    ((∃ cs', updateComponent sampleComponentState "teeth" (some 0) none 7 =
        .ok cs' ∧
      ∃ c0, cs'.components.find? (fun x => x.key = "teeth") = some c0 ∧
        c0.currentValue = 0 ∧ c0.lastChecked = some 7) ∧
    (∃ cs', updateComponent sampleComponentState "teeth" none none 7 =
        .ok cs' ∧
      ∃ c0, cs'.components.find? (fun x => x.key = "teeth") = some c0 ∧
        c0.currentValue = sampleComponent.maxValue ∧
        c0.lastChecked = some 7)) :=
  ⟨rfl, rfl, by decide,
    C9_explicit_zero_is_not_checkoff sampleComponentState "teeth" none 7
      sampleComponent rfl rfl (by decide)⟩
